import Mathlib

/-!
Verification of the Waiter library (barrier watcher, state publisher and
session manager built on a Consul-style key-value store).

The definitions below are a shallow embedding of the Go source:

* `updateNodes` embeds `(*Wait).updateNodes` from wait.go, with the local
  `nodes` map modelled as an association list from node name to state and
  the two imperative loops modelled as a filter pass (deletions) followed
  by a left fold (additions/changes).
* `nodesOfList` embeds `(*Wait).getNodeList`'s conversion of a raw key
  listing into `WaitNode`s; `treeEntryKey` embeds `createTreeEntry`'s key.
* `waitLoop` / `waitRun` embed `(*Wait).Wait`, with wall-clock readings and
  store answers supplied by a per-round environment script.
* `customerRun` embeds `(*Customer).Run` from customer.go (the variant with
  `defer c.remove()`), producing the list of store operations it performs.
* `customerRun2` / `customerRemove` embed the customer variant with the
  `running` flag and the `Remove` method.
-/

namespace Waiter

/-- A single node's current state (wait.go `WaitNode`). -/
structure WaitNode where
  node : String
  state : String
deriving DecidableEq, Repr

/-- A change in state of a particular node (wait.go `WaitNodeUpdate`). -/
structure WaitNodeUpdate where
  node : String
  state : String
  lastState : String
deriving DecidableEq, Repr

/-- The watcher's local `map[string]WaitNode`, as an association list from
node name to state (the `Node` field of the stored value always equals the
key, so only the state is kept as the value). -/
abbrev Snapshot := List (String × String)

/-- Map lookup: the state stored for node `k`, if any. -/
def lookupNode (m : Snapshot) (k : String) : Option String :=
  (m.find? (fun p => p.1 == k)).map (fun p => p.2)

/-- Map assignment for a key that is already present: replace its value. -/
def setState (m : Snapshot) (k v : String) : Snapshot :=
  m.map (fun p => if p.1 == k then (k, v) else p)

/-- State of the second loop of `updateNodes`: the evolving node map, the
`allReady` flag and the updates emitted so far. -/
structure FoldSt where
  snap : Snapshot
  allReady : Bool
  ups : List WaitNodeUpdate

/-- One iteration of the second loop of `updateNodes` (wait.go lines
195-234): look the incoming node up in the map; if absent, insert it and
emit an update with empty `lastState`; if present with a different state,
overwrite it and emit an update carrying the previous state; evaluate
`isReady` on the updated node and clear `allReady` when it is not ready;
an unchanged node is skipped entirely. -/
def applyNew (isReady : WaitNode → Bool) (st : FoldSt) (n : WaitNode) : FoldSt :=
  match lookupNode st.snap n.node with
  | none =>
      { snap := st.snap ++ [(n.node, n.state)]
        allReady := st.allReady && isReady n
        ups := st.ups ++ [⟨n.node, n.state, ""⟩] }
  | some p =>
      if p == n.state then st
      else
        { snap := setState st.snap n.node n.state
          allReady := st.allReady && isReady n
          ups := st.ups ++ [⟨n.node, n.state, p⟩] }

/-- Result of one diff/update round. -/
structure UpdateResult where
  allReady : Bool
  nodeCount : Nat
  snapshot : Snapshot
  updates : List WaitNodeUpdate

/-- Embedding of `(*Wait).updateNodes` (wait.go lines 168-237).
`allReady` starts `true` and `nodeCount` is the length of the new listing.
The first loop removes every mapped node that is absent from the new
listing, emitting a disappearance update (`state = ""`); the second loop
processes the new listing via `applyNew`. -/
def updateNodes (isReady : WaitNode → Bool) (nodes : Snapshot)
    (newNodes : List WaitNode) : UpdateResult :=
  let kept := nodes.filter (fun p => newNodes.any (fun n => n.node == p.1))
  let removedUps :=
    (nodes.filter (fun p => !(newNodes.any (fun n => n.node == p.1)))).map
      (fun p => (⟨p.1, "", p.2⟩ : WaitNodeUpdate))
  let fin := newNodes.foldl (applyNew isReady) ⟨kept, true, []⟩
  { allReady := fin.allReady
    nodeCount := newNodes.length
    snapshot := fin.snap
    updates := removedUps ++ fin.ups }

/-- The state a listing assigns to node name `k`: the state of the first
listed node with that name, if any. -/
def listingState (ns : List WaitNode) (k : String) : Option String :=
  (ns.find? (fun n => n.node == k)).map (fun n => n.state)

/-- `strings.Trim(s, "/")` on a character list: remove leading and trailing
slash characters. -/
def trimSlashesL (l : List Char) : List Char :=
  ((l.dropWhile (fun c => c == '/')).reverse.dropWhile (fun c => c == '/')).reverse

/-- `strings.Trim(s, "/")` on strings. -/
def trimSlashes (s : String) : String :=
  String.mk (trimSlashesL s.data)

/-- The node name `getNodeList` derives from a listed key (wait.go line
156): drop the prefix's length, then trim slashes. -/
def nodeNameOf (pfx key : String) : String :=
  String.mk (trimSlashesL (key.data.drop pfx.data.length))

/-- Embedding of the listing conversion in `(*Wait).getNodeList` (wait.go
lines 153-163): each raw `(key, value)` entry whose derived node name is
nonempty becomes a `WaitNode`; entries with an empty derived name are
skipped. -/
def nodesOfList (pfx : String) (list : List (String × String)) : List WaitNode :=
  list.filterMap (fun p =>
    let nodeName := nodeNameOf pfx p.1
    if nodeName = "" then none else some ⟨nodeName, p.2⟩)

/-- The key written by `(*Wait).createTreeEntry` (wait.go line 134):
the slash-trimmed prefix followed by a trailing slash. -/
def treeEntryKey (pfx : String) : String :=
  String.mk (trimSlashesL pfx.data ++ ['/'])

/-- Configuration of a `Wait` value (prefix, minimum node count, readiness
predicate). -/
structure WaitCfg where
  pfx : String
  minimumNodes : Nat
  isReady : WaitNode → Bool

/-- Embedding of `NewWaiter` (wait.go lines 58-63): when no readiness
predicate is supplied, the default predicate returns `true` for every
node. -/
def mkWaiter (pfx : String) (minimumNodes : Nat)
    (isReady : Option (WaitNode → Bool)) : WaitCfg :=
  { pfx := pfx, minimumNodes := minimumNodes
    isReady := isReady.getD (fun _ => true) }

/-- Environment of one round of the watch loop: the elapsed wall-clock
time observed by the `shouldStop` check at the top of the loop (`t1`), the
store's answer to the blocking listing query (an error, or a raw key
listing together with the new change index), and the elapsed time observed
by the re-check after the query returns (`t2`). -/
structure RoundEnv where
  t1 : Nat
  query : Except Nat (List (String × String) × Nat)
  t2 : Nat

/-- Outcome of `Wait`: `success` is `(true, nil)`, `timedOut` is
`(false, nil)`, `failed e` is `(false, err)`; `outOfRounds` means the
environment script was exhausted while the loop would have continued. -/
inductive WaitResult where
  | success
  | timedOut
  | failed (e : Nat)
  | outOfRounds
deriving DecidableEq, Repr

/-- Embedding of the loop of `(*Wait).Wait` (wait.go lines 100-125).
Per round: stop with `(false, nil)` when elapsed time strictly exceeds the
timeout; issue the listing query, propagating a store error; re-check the
timeout; diff the converted listing against the snapshot; return
`(true, nil)` when `allReady` holds and the node count reaches
`minimumNodes`; otherwise continue with the updated snapshot and change
index. -/
def waitLoop (cfg : WaitCfg) (timeout : Nat) :
    Snapshot → Nat → List RoundEnv → WaitResult
  | _, _, [] => .outOfRounds
  | nodes, _lastIdx, r :: rest =>
    if timeout < r.t1 then .timedOut
    else
      match r.query with
      | .error e => .failed e
      | .ok (list, newIdx) =>
        if timeout < r.t2 then .timedOut
        else
          let res := updateNodes cfg.isReady nodes (nodesOfList cfg.pfx list)
          if res.allReady && decide (cfg.minimumNodes ≤ res.nodeCount) then
            .success
          else
            waitLoop cfg timeout res.snapshot newIdx rest

/-- Embedding of `(*Wait).Wait` (wait.go lines 89-126): create the tree
entry, propagating a store error, then run the watch loop from an empty
snapshot and change index zero. -/
def waitRun (cfg : WaitCfg) (timeout : Nat) (createErr : Option Nat)
    (rounds : List RoundEnv) : WaitResult :=
  match createErr with
  | some e => .failed e
  | none => waitLoop cfg timeout [] 0 rounds

/-- A store operation performed by the publisher. -/
inductive StoreOp where
  | acquire (key session : String)
  | put (key value session : String)
  | delete (key : String)
deriving DecidableEq, Repr

/-- Errors surfaced by the publisher: store communication failures,
lock-contention failures (`Could not acquire lock on ...`) and the
remove-while-running misuse error. -/
inductive RunError where
  | store (e : Nat)
  | contention (key : String)
  | removeWhileRunning
deriving DecidableEq, Repr

/-- A customer's configuration: the key prefix and the customer's name. -/
structure CustomerCfg where
  pfx : String
  name : String

/-- `(*Customer).fullKey` (customer.go lines 86-88): the slash-trimmed
prefix and name joined by a slash. -/
def fullKey (c : CustomerCfg) : String :=
  trimSlashes c.pfx ++ "/" ++ trimSlashes c.name

/-- The publish loop of `(*Customer).Run` (customer.go lines 64-74): one
`Put` of the key per state received, in order, stopping with the store's
error as soon as a put fails; `putErr i` is the store's answer to the
`i`-th put. Returns the loop's result and the operations performed. -/
def pumpStates (key sessionID : String) (putErr : Nat → Option Nat) :
    List String → Nat → Option RunError × List StoreOp
  | [], _ => (none, [])
  | s :: rest, i =>
    match putErr i with
    | some e => (some (.store e), [.put key s sessionID])
    | none =>
      let r := pumpStates key sessionID putErr rest (i + 1)
      (r.1, .put key s sessionID :: r.2)

/-- The shared body of `(*Customer).Run` (identical in both source
variants): with a session, first attempt an atomic acquire of the key —
a store error aborts, and `acquired = false` with no error becomes the
contention error, aborting before any put; otherwise run the publish
loop. Result: the returned error (none on normal completion) and the
store operations performed, in order. -/
def customerRunBody (c : CustomerCfg) (session : Option String)
    (acquireRes : Bool × Option Nat) (putErr : Nat → Option Nat)
    (states : List String) : Option RunError × List StoreOp :=
  let sessionID := session.getD ""
  match session with
  | none => pumpStates (fullKey c) sessionID putErr states 0
  | some _ =>
    match acquireRes with
    | (_, some e) => (some (.store e), [.acquire (fullKey c) sessionID])
    | (false, none) =>
        (some (.contention (fullKey c)), [.acquire (fullKey c) sessionID])
    | (true, none) =>
        let r := pumpStates (fullKey c) sessionID putErr states 0
        (r.1, .acquire (fullKey c) sessionID :: r.2)

/-- Embedding of `(*Customer).Run` from customer.go (lines 36-77, the
variant with `defer c.remove()`): the shared body, with the deferred
`c.remove()` appending a `Delete` of the key on every return path. -/
def customerRun (c : CustomerCfg) (session : Option String)
    (acquireRes : Bool × Option Nat) (putErr : Nat → Option Nat)
    (states : List String) : Option RunError × List StoreOp :=
  let body := customerRunBody c session acquireRes putErr states
  (body.1, body.2 ++ [.delete (fullKey c)])

/-- A customer of the variant appended in session.go: carries the
`running` flag consulted by `Remove`. -/
structure Customer2 where
  cfg : CustomerCfg
  running : Bool

/-- `kv.Delete` on the store model: drop the entry with the given key. -/
def eraseKey (store : List (String × String)) (k : String) :
    List (String × String) :=
  store.filter (fun p => !(p.1 == k))

/-- Embedding of `(*Customer).Remove` from the session.go variant (lines
180-189): refuse with an error — leaving the store untouched — while the
customer is running; otherwise delete the key, propagating a store error
(`deleteErr`) when the delete itself fails. -/
def customerRemove (c : Customer2) (store : List (String × String))
    (deleteErr : Option Nat) : Option RunError × List (String × String) :=
  if c.running then (some .removeWhileRunning, store)
  else
    match deleteErr with
    | some e => (some (.store e), store)
    | none => (none, eraseKey store (fullKey c.cfg))

/-- Embedding of `(*Customer).Run` from the session.go variant (lines
134-175): sets `running` on entry and the deferred reset clears it on
every return path, so the returned customer always has `running = false`;
this variant performs no retraction of the key on exit. -/
def customerRun2 (c : Customer2) (session : Option String)
    (acquireRes : Bool × Option Nat) (putErr : Nat → Option Nat)
    (states : List String) : Option RunError × List StoreOp × Customer2 :=
  let body := customerRunBody c.cfg session acquireRes putErr states
  (body.1, body.2, { c with running := false })

/-- The per-node diff decision of the second loop of `updateNodes`,
relative to a fixed map: `none` for an unchanged node, otherwise the
emitted update. -/
def diffOf (m : Snapshot) (n : WaitNode) : Option WaitNodeUpdate :=
  match lookupNode m n.node with
  | none => some ⟨n.node, n.state, ""⟩
  | some p => if p == n.state then none else some ⟨n.node, n.state, p⟩

/-- The readiness predicate used in the concrete examples: a node is ready
exactly when its published state is the string `ready`. -/
def readyPred : WaitNode → Bool := fun n => n.state == "ready"

/-- Concrete watcher: prefix `wait/test`, one node required, `readyPred`. -/
def cfgReady : WaitCfg :=
  { pfx := "wait/test", minimumNodes := 1, isReady := readyPred }

/-- Concrete watcher: prefix `wait/test`, one node required, default
readiness predicate (none supplied, as in the README usage). -/
def cfgDefault : WaitCfg := mkWaiter "wait/test" 1 none

/-- Concrete watcher: prefix `wait/test`, two nodes required, default
readiness predicate. -/
def cfgTwo : WaitCfg := mkWaiter "wait/test" 2 none

/-- A round whose listing holds the placeholder and one node `n1` in state
`busy`, observed with no time elapsed. -/
def busyRound (idx : Nat) : RoundEnv :=
  ⟨0, .ok ([("wait/test/", ""), ("wait/test/n1", "busy")], idx), 0⟩

/-- Concrete customer configuration for the publisher examples. -/
def exCfg : CustomerCfg := ⟨"wait/test", "cust1"⟩

/-- Concrete store contents for the `Remove` examples. -/
def exStore : List (String × String) :=
  [("wait/test/cust1", "busy"), ("other", "x")]

/-- A put-error oracle under which every put succeeds. -/
def noPutErr : Nat → Option Nat := fun _ => none

/-! ### Association-list lemmas for the snapshot map -/

theorem lookupNode_nil (k : String) : lookupNode [] k = none := rfl

theorem lookupNode_cons (a b k : String) (m : Snapshot) :
    lookupNode ((a, b) :: m) k = if a == k then some b else lookupNode m k := by
  by_cases h : a = k
  · subst h
    simp [lookupNode, List.find?_cons]
  · have hb : (a == k) = false := by simpa using h
    simp [lookupNode, List.find?_cons, hb]

theorem lookupNode_append (m m2 : Snapshot) (k : String) :
    lookupNode (m ++ m2) k =
      ((lookupNode m k).rec (lookupNode m2 k) (fun v => some v)) := by
  induction m with
  | nil => simp [lookupNode_nil]
  | cons p m ih =>
    obtain ⟨a, b⟩ := p
    by_cases h : a = k
    · subst h
      simp [lookupNode_cons]
    · have hb : (a == k) = false := by simpa using h
      simp [lookupNode_cons, hb, ih]

theorem lookupNode_append_of_none (m : Snapshot) (k v : String)
    (h : lookupNode m k = none) :
    lookupNode (m ++ [(k, v)]) k = some v := by
  rw [lookupNode_append, h]
  simp [lookupNode_cons]

theorem lookupNode_append_ne (m : Snapshot) (a k v : String) (h : a ≠ k) :
    lookupNode (m ++ [(a, v)]) k = lookupNode m k := by
  have hb : (a == k) = false := by simpa using h
  rw [lookupNode_append]
  cases hm : lookupNode m k <;> simp [lookupNode_cons, hb, lookupNode_nil]

theorem lookupNode_setState_self (m : Snapshot) (k v : String) :
    lookupNode (setState m k v) k = (lookupNode m k).map (fun _ => v) := by
  induction m with
  | nil => simp [setState, lookupNode_nil]
  | cons p m ih =>
    obtain ⟨a, b⟩ := p
    by_cases h : a = k
    · subst h
      simp [setState, lookupNode_cons]
    · simp [setState, lookupNode_cons, h] at ih ⊢
      exact ih

theorem lookupNode_setState_ne (m : Snapshot) (a v k : String) (h : a ≠ k) :
    lookupNode (setState m a v) k = lookupNode m k := by
  induction m with
  | nil => simp [setState, lookupNode_nil]
  | cons p m ih =>
    obtain ⟨c, d⟩ := p
    by_cases hc : c = a
    · subst hc
      have hck : ¬ c = k := h
      simp [setState, lookupNode_cons, hck] at ih ⊢
      exact ih
    · by_cases hck : c = k
      · subst hck
        simp [setState, lookupNode_cons, hc]
      · simp [setState, lookupNode_cons, hc, hck] at ih ⊢
        exact ih

theorem lookupNode_filter_key (f : String → Bool) (m : Snapshot) (k : String) :
    lookupNode (m.filter (fun p => f p.1)) k =
      if f k then lookupNode m k else none := by
  induction m with
  | nil => simp [lookupNode_nil]
  | cons p m ih =>
    obtain ⟨a, b⟩ := p
    by_cases hk : a = k
    · subst hk
      by_cases hf : f a = true
      · simp [List.filter_cons, hf, lookupNode_cons]
      · have hf' : f a = false := by simpa using hf
        simp [List.filter_cons, hf', lookupNode_cons, ih]
    · have hb : (a == k) = false := by simpa using hk
      by_cases hf : f a = true
      · simp [List.filter_cons, hf, lookupNode_cons, hb, ih]
      · have hf' : f a = false := by simpa using hf
        simp [List.filter_cons, hf', lookupNode_cons, hb, ih]

/-! ### Step lemmas for the second loop of `updateNodes` -/

theorem applyNew_snap_self (ir : WaitNode → Bool) (st : FoldSt) (n : WaitNode) :
    lookupNode (applyNew ir st n).snap n.node = some n.state := by
  unfold applyNew
  cases hl : lookupNode st.snap n.node with
  | none => simpa using lookupNode_append_of_none st.snap n.node n.state hl
  | some p =>
    by_cases hp : p = n.state
    · simp [hp, hl]
    · have hb : (p == n.state) = false := by simpa using hp
      simp [hb, lookupNode_setState_self, hl]

theorem applyNew_snap_ne (ir : WaitNode → Bool) (st : FoldSt) (n : WaitNode)
    (k : String) (h : n.node ≠ k) :
    lookupNode (applyNew ir st n).snap k = lookupNode st.snap k := by
  unfold applyNew
  cases hl : lookupNode st.snap n.node with
  | none => simpa using lookupNode_append_ne st.snap n.node k n.state h
  | some p =>
    by_cases hp : p = n.state
    · simp [hp]
    · have hb : (p == n.state) = false := by simpa using hp
      simp [hb, lookupNode_setState_ne st.snap n.node n.state k h]

theorem applyNew_allReady (ir : WaitNode → Bool) (st : FoldSt) (n : WaitNode) :
    (applyNew ir st n).allReady =
      if lookupNode st.snap n.node = some n.state then st.allReady
      else st.allReady && ir n := by
  unfold applyNew
  cases hl : lookupNode st.snap n.node with
  | none => simp
  | some p =>
    by_cases hp : p = n.state
    · simp [hp]
    · have hb : (p == n.state) = false := by simpa using hp
      simp [hb, hp]

theorem applyNew_ups (ir : WaitNode → Bool) (st : FoldSt) (n : WaitNode) :
    (applyNew ir st n).ups = st.ups ++
      (match lookupNode st.snap n.node with
       | none => [(⟨n.node, n.state, ""⟩ : WaitNodeUpdate)]
       | some p =>
         if p == n.state then []
         else [(⟨n.node, n.state, p⟩ : WaitNodeUpdate)]) := by
  unfold applyNew
  cases hl : lookupNode st.snap n.node with
  | none => simp
  | some p =>
    by_cases hp : p = n.state
    · simp [hp]
    · have hb : (p == n.state) = false := by simpa using hp
      simp [hb]

/-! ### Fold characterizations (under distinct node names in the listing) -/

theorem foldl_snap (ir : WaitNode → Bool) :
    ∀ (ns : List WaitNode) (st : FoldSt) (k : String),
      (ns.map (fun n => n.node)).Nodup →
      lookupNode (ns.foldl (applyNew ir) st).snap k =
        (match ns.find? (fun n => n.node == k) with
         | some n => some n.state
         | none => lookupNode st.snap k) := by
  intro ns
  induction ns with
  | nil => intro st k _; rfl
  | cons n rest ih =>
    intro st k hnd
    rw [List.map_cons, List.nodup_cons] at hnd
    obtain ⟨hn, hrest⟩ := hnd
    rw [List.foldl_cons]
    by_cases hk : n.node = k
    · subst hk
      have hfind : rest.find? (fun x => x.node == n.node) = none := by
        rw [List.find?_eq_none]
        intro x hx hpx
        exact hn (List.mem_map.2 ⟨x, hx, by simpa using hpx⟩)
      rw [ih _ _ hrest, hfind]
      simp [List.find?_cons, applyNew_snap_self]
    · have hb : (n.node == k) = false := by simpa using hk
      rw [ih _ _ hrest]
      cases hf : rest.find? (fun x => x.node == k) with
      | some x => simp [List.find?_cons, hb, hf]
      | none => simp [List.find?_cons, hb, hf, applyNew_snap_ne ir st n k hk]

theorem foldl_allReady (ir : WaitNode → Bool) :
    ∀ (ns : List WaitNode) (st : FoldSt),
      (ns.map (fun n => n.node)).Nodup →
      ((ns.foldl (applyNew ir) st).allReady = true ↔
        (st.allReady = true ∧
         ∀ n ∈ ns, lookupNode st.snap n.node ≠ some n.state → ir n = true)) := by
  intro ns
  induction ns with
  | nil => intro st _; simp
  | cons n rest ih =>
    intro st hnd
    rw [List.map_cons, List.nodup_cons] at hnd
    obtain ⟨hn, hrest⟩ := hnd
    rw [List.foldl_cons, ih _ hrest]
    have hkeep : ∀ x ∈ rest,
        lookupNode (applyNew ir st n).snap x.node = lookupNode st.snap x.node := by
      intro x hx
      have hxn : n.node ≠ x.node := by
        intro hcontra
        exact hn (List.mem_map.2 ⟨x, hx, hcontra.symm⟩)
      exact applyNew_snap_ne ir st n x.node hxn
    have hrw : (∀ x ∈ rest,
          lookupNode (applyNew ir st n).snap x.node ≠ some x.state → ir x = true) ↔
        (∀ x ∈ rest, lookupNode st.snap x.node ≠ some x.state → ir x = true) := by
      constructor
      · intro h x hx
        rw [← hkeep x hx]
        exact h x hx
      · intro h x hx
        rw [hkeep x hx]
        exact h x hx
    rw [hrw, applyNew_allReady, List.forall_mem_cons]
    by_cases hl : lookupNode st.snap n.node = some n.state
    · simp only [if_pos hl]
      constructor
      · rintro ⟨ha, hrest'⟩
        exact ⟨ha, ⟨fun hne => absurd hl hne, hrest'⟩⟩
      · rintro ⟨ha, _, hrest'⟩
        exact ⟨ha, hrest'⟩
    · simp only [if_neg hl, Bool.and_eq_true]
      constructor
      · rintro ⟨⟨ha, hir⟩, hrest'⟩
        exact ⟨ha, ⟨fun _ => hir, hrest'⟩⟩
      · rintro ⟨ha, hn', hrest'⟩
        exact ⟨⟨ha, hn' hl⟩, hrest'⟩

theorem filterMap_ext {α β : Type} (f g : α → Option β) :
    ∀ (l : List α), (∀ a ∈ l, f a = g a) → l.filterMap f = l.filterMap g := by
  intro l
  induction l with
  | nil => intro _; rfl
  | cons a l ih =>
    intro h
    rw [List.filterMap_cons, List.filterMap_cons, h a (List.mem_cons_self a l),
      ih (fun x hx => h x (List.mem_cons_of_mem a hx))]

theorem foldl_ups (ir : WaitNode → Bool) :
    ∀ (ns : List WaitNode) (st : FoldSt),
      (ns.map (fun n => n.node)).Nodup →
      (ns.foldl (applyNew ir) st).ups = st.ups ++ ns.filterMap (diffOf st.snap) := by
  intro ns
  induction ns with
  | nil => intro st _; simp
  | cons n rest ih =>
    intro st hnd
    rw [List.map_cons, List.nodup_cons] at hnd
    obtain ⟨hn, hrest⟩ := hnd
    rw [List.foldl_cons, ih _ hrest]
    have hkeep : rest.filterMap (diffOf (applyNew ir st n).snap) =
        rest.filterMap (diffOf st.snap) := by
      apply filterMap_ext
      intro x hx
      have hxn : n.node ≠ x.node := by
        intro hcontra
        exact hn (List.mem_map.2 ⟨x, hx, hcontra.symm⟩)
      unfold diffOf
      rw [applyNew_snap_ne ir st n x.node hxn]
    rw [hkeep, applyNew_ups, List.filterMap_cons]
    unfold diffOf
    cases hl : lookupNode st.snap n.node with
    | none => simp
    | some p =>
      by_cases hp : (p == n.state) = true
      · simp [hp]
      · have hb : (p == n.state) = false := by simpa using hp
        simp [hb]

/-! ### `updateNodes`-level characterizations -/

theorem mem_any_node (ns : List WaitNode) (n : WaitNode) (h : n ∈ ns) :
    ns.any (fun x => x.node == n.node) = true :=
  List.any_eq_true.2 ⟨n, h, by simp⟩

theorem lookupNode_kept (nodes : Snapshot) (ns : List WaitNode) (n : WaitNode)
    (h : n ∈ ns) :
    lookupNode (nodes.filter (fun p => ns.any (fun x => x.node == p.1))) n.node =
      lookupNode nodes n.node := by
  rw [lookupNode_filter_key (fun a => ns.any (fun x => x.node == a)) nodes n.node,
    if_pos (mem_any_node ns n h)]

theorem updateNodes_snapshot (ir : WaitNode → Bool) (nodes : Snapshot)
    (ns : List WaitNode) (k : String) (hnd : (ns.map (fun n => n.node)).Nodup) :
    lookupNode (updateNodes ir nodes ns).snapshot k = listingState ns k := by
  show lookupNode
      (ns.foldl (applyNew ir)
        ⟨nodes.filter (fun p => ns.any (fun n => n.node == p.1)), true, []⟩).snap k =
    listingState ns k
  rw [foldl_snap ir ns _ k hnd]
  cases hf : ns.find? (fun n => n.node == k) with
  | some n => simp [listingState, hf]
  | none =>
    have hany : ns.any (fun n => n.node == k) = false := by
      rw [List.find?_eq_none] at hf
      by_contra hc
      have hc' : ns.any (fun n => n.node == k) = true := by
        simpa using hc
      obtain ⟨x, hx, hpx⟩ := List.any_eq_true.1 hc'
      exact hf x hx hpx
    simp only [listingState, hf, Option.map_none]
    rw [lookupNode_filter_key (fun a => ns.any (fun n => n.node == a)) nodes k]
    simp [hany]

theorem updateNodes_allReady (ir : WaitNode → Bool) (nodes : Snapshot)
    (ns : List WaitNode) (hnd : (ns.map (fun n => n.node)).Nodup) :
    ((updateNodes ir nodes ns).allReady = true ↔
      ∀ n ∈ ns, lookupNode nodes n.node ≠ some n.state → ir n = true) := by
  show ((ns.foldl (applyNew ir)
      ⟨nodes.filter (fun p => ns.any (fun n => n.node == p.1)), true, []⟩).allReady = true ↔ _)
  rw [foldl_allReady ir ns _ hnd]
  simp only [true_and]
  constructor
  · intro h n hn
    rw [← lookupNode_kept nodes ns n hn]
    exact h n hn
  · intro h n hn
    rw [lookupNode_kept nodes ns n hn]
    exact h n hn

theorem updateNodes_updates (ir : WaitNode → Bool) (nodes : Snapshot)
    (ns : List WaitNode) (hnd : (ns.map (fun n => n.node)).Nodup) :
    (updateNodes ir nodes ns).updates =
      (nodes.filter (fun p => !(ns.any (fun n => n.node == p.1)))).map
        (fun p => (⟨p.1, "", p.2⟩ : WaitNodeUpdate)) ++
      ns.filterMap (diffOf nodes) := by
  show (nodes.filter (fun p => !(ns.any (fun n => n.node == p.1)))).map
      (fun p => (⟨p.1, "", p.2⟩ : WaitNodeUpdate)) ++
    (ns.foldl (applyNew ir)
      ⟨nodes.filter (fun p => ns.any (fun n => n.node == p.1)), true, []⟩).ups = _
  rw [foldl_ups ir ns _ hnd]
  congr 1
  show [] ++ ns.filterMap _ = _
  rw [List.nil_append]
  apply filterMap_ext
  intro n hn
  unfold diffOf
  rw [lookupNode_kept nodes ns n hn]

theorem diffOf_node (m : Snapshot) (n : WaitNode) (u : WaitNodeUpdate)
    (h : diffOf m n = some u) : u.node = n.node := by
  unfold diffOf at h
  split at h
  · cases h
    rfl
  · split at h
    · cases h
    · cases h
      rfl

theorem lookupNode_of_mem (nodes : Snapshot) (k v : String)
    (hnd : (nodes.map Prod.fst).Nodup) (h : (k, v) ∈ nodes) :
    lookupNode nodes k = some v := by
  induction nodes with
  | nil => cases h
  | cons p m ih =>
    obtain ⟨a, b⟩ := p
    rw [List.map_cons, List.nodup_cons] at hnd
    obtain ⟨ha, hm⟩ := hnd
    rcases List.mem_cons.1 h with heq | hmem
    · cases heq
      simp [lookupNode_cons]
    · have hak : a ≠ k := by
        intro hcontra
        subst hcontra
        exact ha (List.mem_map.2 ⟨(a, v), hmem, rfl⟩)
      have hb : (a == k) = false := by simpa using hak
      rw [lookupNode_cons, if_neg (by simp [hb]), ih hm hmem]

theorem find?_self_of_nodup (ns : List WaitNode) (n : WaitNode)
    (hnd : (ns.map (fun x => x.node)).Nodup) (h : n ∈ ns) :
    ns.find? (fun x => x.node == n.node) = some n := by
  induction ns with
  | nil => cases h
  | cons m rest ih =>
    rw [List.map_cons, List.nodup_cons] at hnd
    obtain ⟨hm, hrest⟩ := hnd
    rcases List.mem_cons.1 h with heq | hmem
    · subst heq
      simp [List.find?_cons]
    · have hne : m.node ≠ n.node := by
        intro hcontra
        exact hm (List.mem_map.2 ⟨n, hmem, hcontra.symm⟩)
      have hb : (m.node == n.node) = false := by simpa using hne
      simp [List.find?_cons, hb, ih hrest hmem]

theorem node_inj_of_nodup (ns : List WaitNode) (x n : WaitNode)
    (hnd : (ns.map (fun y => y.node)).Nodup) (hx : x ∈ ns) (hn : n ∈ ns)
    (h : x.node = n.node) : x = n :=
  List.inj_on_of_nodup_map hnd hx hn h

theorem map_node_filterMap_sublist (m : Snapshot) :
    ∀ (ns : List WaitNode),
      ((ns.filterMap (diffOf m)).map (fun u => u.node)).Sublist
        (ns.map (fun n => n.node)) := by
  intro ns
  induction ns with
  | nil => simp
  | cons n rest ih =>
    rw [List.filterMap_cons]
    cases hd : diffOf m n with
    | none =>
      rw [List.map_cons]
      exact ih.cons n.node
    | some u =>
      rw [List.map_cons, List.map_cons, diffOf_node m n u hd]
      exact ih.cons₂ n.node

/-! ### Claims about the barrier watcher -/

/-- Claim C1, counterexample: the round's `allReady` is NOT equivalent to
"every node present in that round's listing satisfies `isReady`".
Starting from the snapshot produced by a first round over the listing
`[n1 = busy]` (where `n1` is not ready), a second round over the same
listing reports `allReady = true` because the unchanged node is never
re-evaluated — and `Wait` consequently returns `(true, nil)` while the
only listed node is still `busy`. -/
theorem C1_counterexample :
    (updateNodes readyPred
        (updateNodes readyPred [] [⟨"n1", "busy"⟩]).snapshot
        [⟨"n1", "busy"⟩]).allReady = true ∧
    ¬ (∀ n ∈ [(⟨"n1", "busy"⟩ : WaitNode)], readyPred n = true) ∧
    waitLoop cfgReady 10 [] 0 [busyRound 1, busyRound 2] = .success := by
  decide

/-- Claim C1, amended: the `allReady` value returned by a round's
diff/update step is reinitialized to `true` each round (not carried over),
but it is true iff every node of the listing that is NEW or whose state
CHANGED relative to the current snapshot satisfies `isReady`; unchanged
nodes are not re-evaluated (listing node names assumed distinct, as store
keys are unique). -/
theorem C1_amended (ir : WaitNode → Bool) (nodes : Snapshot)
    (ns : List WaitNode) (hnd : (ns.map (fun n => n.node)).Nodup) :
    ((updateNodes ir nodes ns).allReady = true ↔
      ∀ n ∈ ns, lookupNode nodes n.node ≠ some n.state → ir n = true) :=
  updateNodes_allReady ir nodes ns hnd

/-- Witness for C1 (amended) at a concrete input. -/
theorem C1_amended_witness :
    (([(⟨"n1", "busy"⟩ : WaitNode)].map (fun n => n.node)).Nodup) ∧
    ((updateNodes readyPred [("n1", "ready")] [⟨"n1", "busy"⟩]).allReady = true ↔
      ∀ n ∈ [(⟨"n1", "busy"⟩ : WaitNode)],
        lookupNode [("n1", "ready")] n.node ≠ some n.state → readyPred n = true) :=
  ⟨by decide,
   C1_amended readyPred [("n1", "ready")] [⟨"n1", "busy"⟩] (by decide)⟩

/-- Claim C2: after `updateNodes` processes a listing, the local snapshot
is extensionally equal to the listing — every node name maps to exactly
the state the listing gives it, and names absent from the listing are
absent from the snapshot (listing node names assumed distinct, as store
keys are unique). -/
theorem C2_snapshot_eq (ir : WaitNode → Bool) (nodes : Snapshot)
    (ns : List WaitNode) (k : String)
    (hnd : (ns.map (fun n => n.node)).Nodup) :
    lookupNode (updateNodes ir nodes ns).snapshot k = listingState ns k :=
  updateNodes_snapshot ir nodes ns k hnd

/-- Witness for C2 at a concrete input: `old` is dropped, `n1` updated. -/
theorem C2_snapshot_eq_witness :
    (([(⟨"n1", "ready"⟩ : WaitNode), ⟨"n2", "busy"⟩].map (fun n => n.node)).Nodup) ∧
    lookupNode (updateNodes readyPred [("old", "x"), ("n1", "busy")]
        [⟨"n1", "ready"⟩, ⟨"n2", "busy"⟩]).snapshot "old" =
      listingState [⟨"n1", "ready"⟩, ⟨"n2", "busy"⟩] "old" :=
  ⟨by decide,
   C2_snapshot_eq readyPred [("old", "x"), ("n1", "busy")]
     [⟨"n1", "ready"⟩, ⟨"n2", "busy"⟩] "old" (by decide)⟩

/-- Claim C3: provided the round is reached (neither timeout check fires
and the query succeeded), `Wait` returns `(true, nil)` in this round or a
later one iff either this round's `allReady` holds together with
`nodeCount ≥ minimumNodes`, or a later round succeeds — so success in a
round requires exactly the conjunction of the two conditions, and neither
alone suffices. -/
theorem C3_success_iff (cfg : WaitCfg) (timeout t1 t2 lastIdx idx : Nat)
    (nodes : Snapshot) (list : List (String × String)) (rest : List RoundEnv)
    (h1 : t1 ≤ timeout) (h2 : t2 ≤ timeout) :
    (waitLoop cfg timeout nodes lastIdx (⟨t1, .ok (list, idx), t2⟩ :: rest) =
        .success ↔
      (((updateNodes cfg.isReady nodes (nodesOfList cfg.pfx list)).allReady = true ∧
        cfg.minimumNodes ≤
          (updateNodes cfg.isReady nodes (nodesOfList cfg.pfx list)).nodeCount) ∨
       waitLoop cfg timeout
         (updateNodes cfg.isReady nodes (nodesOfList cfg.pfx list)).snapshot
         idx rest = .success)) := by
  have hn1 : ¬ timeout < t1 := Nat.not_lt.2 h1
  have hn2 : ¬ timeout < t2 := Nat.not_lt.2 h2
  rw [waitLoop]
  simp only [hn1, if_false, hn2]
  set res := updateNodes cfg.isReady nodes (nodesOfList cfg.pfx list) with hres
  by_cases hc : (res.allReady && decide (cfg.minimumNodes ≤ res.nodeCount)) = true
  · rw [if_pos hc]
    have hc' : res.allReady = true ∧ cfg.minimumNodes ≤ res.nodeCount := by
      simpa using hc
    exact ⟨fun _ => Or.inl hc', fun _ => rfl⟩
  · rw [if_neg hc]
    constructor
    · intro h
      exact Or.inr h
    · rintro (⟨ha, hm⟩ | h)
      · exact absurd (by rw [ha, decide_eq_true hm]; rfl) hc
      · exact h

/-- Witness for C3 at a concrete input: one ready node with
`minimumNodes = 2` — `allReady` alone does not produce success. -/
theorem C3_success_iff_witness :
    ((0 : Nat) ≤ 10 ∧ (0 : Nat) ≤ 10) ∧
    (waitLoop cfgTwo 10 [] 0
        [⟨0, .ok ([("wait/test/n1", "ready")], 1), 0⟩] = .success ↔
      (((updateNodes cfgTwo.isReady []
            (nodesOfList cfgTwo.pfx [("wait/test/n1", "ready")])).allReady = true ∧
        cfgTwo.minimumNodes ≤
          (updateNodes cfgTwo.isReady []
            (nodesOfList cfgTwo.pfx [("wait/test/n1", "ready")])).nodeCount) ∨
       waitLoop cfgTwo 10
         (updateNodes cfgTwo.isReady []
           (nodesOfList cfgTwo.pfx [("wait/test/n1", "ready")])).snapshot
         1 [] = .success)) :=
  ⟨⟨by decide, by decide⟩,
   C3_success_iff cfgTwo 10 0 0 0 1 [] [("wait/test/n1", "ready")] []
     (by decide) (by decide)⟩

/-- Claim C4, counterexample: with prefix `wait/test`, `minimumNodes = 1`
and the DEFAULT readiness predicate (nil supplied), `Wait` already returns
`(true, nil)` in the round in which the single node's published value is
`busy` — it does not wait for a later `ready` value, contradicting the
claim that `Wait` "does not yet return true" after `busy`. -/
theorem C4_counterexample :
    waitRun cfgDefault 10 none
      [⟨0, .ok ([("wait/test/", ""), ("wait/test/cust1", "busy")], 5), 0⟩] =
      .success := by
  decide

/-- Claim C4, amended: under the default predicate every published value
counts as ready, so `Wait` returns `(true, nil)` as soon as the single
node has published ANY value — `busy` included; the behaviour claimed for
`busy` does not occur. -/
theorem C4_amended (v : String) :
    waitRun cfgDefault 10 none
      [⟨0, .ok ([("wait/test/", ""), ("wait/test/cust1", v)], 5), 0⟩] =
      .success := rfl

/-- Claim C5, counterexample: `shouldStop` uses a strict comparison
(`elapsed > timeout`), so at elapsed time exactly equal to the timeout —
"at least the timeout" in the claim's words — the loop does NOT stop:
with both checks observing elapsed = timeout = 5 the round still runs and
`Wait` returns `(true, nil)`, not `(false, nil)`. -/
theorem C5_counterexample :
    (5 : Nat) ≤ 5 ∧
    waitLoop cfgDefault 5 [] 0
      [⟨5, .ok ([("wait/test/n1", "ready")], 1), 5⟩] = .success ∧
    WaitResult.success ≠ WaitResult.timedOut := by
  decide

/-- Claim C5, amended: whenever the elapsed wall-clock time STRICTLY
exceeds the timeout — at the check at the start of a round, or at the
re-check after a successful listing query — `Wait` returns `(false, nil)`;
a timeout is a non-error outcome. (At elapsed time exactly equal to the
timeout the loop proceeds: the code compares with `>`.) -/
theorem C5_amended (cfg : WaitCfg) (timeout : Nat) (nodes : Snapshot)
    (lastIdx : Nat) (r : RoundEnv) (rest : List RoundEnv) :
    (timeout < r.t1 →
      waitLoop cfg timeout nodes lastIdx (r :: rest) = .timedOut) ∧
    (∀ list idx, r.t1 ≤ timeout → r.query = .ok (list, idx) →
      timeout < r.t2 →
      waitLoop cfg timeout nodes lastIdx (r :: rest) = .timedOut) := by
  obtain ⟨t1, q, t2⟩ := r
  constructor
  · intro h
    rw [waitLoop]
    exact if_pos h
  · intro list idx h1 hq h2
    cases hq
    rw [waitLoop]
    rw [if_neg (Nat.not_lt.2 h1)]
    exact if_pos h2

/-- Witness for C5 (amended): both stopping branches exercised. -/
theorem C5_amended_witness :
    ((6 : Nat) < 7 ∧
      waitLoop cfgDefault 6 [] 0 [⟨7, .ok ([], 1), 8⟩] = .timedOut) ∧
    ((5 : Nat) ≤ 6 ∧ (6 : Nat) < 9 ∧
      waitLoop cfgDefault 6 [] 0 [⟨5, .ok ([], 1), 9⟩] = .timedOut) :=
  ⟨⟨by decide,
    (C5_amended cfgDefault 6 [] 0 ⟨7, .ok ([], 1), 8⟩ []).1 (by decide)⟩,
   ⟨by decide, by decide,
    (C5_amended cfgDefault 6 [] 0 ⟨5, .ok ([], 1), 9⟩ []).2 [] 1
      (by decide) rfl (by decide)⟩⟩

/-- Claim C10: `getNodeList` never reports a node with an empty derived
name, and an entry whose key is the placeholder written by
`createTreeEntry` (for a slash-normalized prefix) is dropped from the
listing wherever it occurs — so it is never evaluated for readiness and
never counts toward `nodeCount`. -/
theorem C10_placeholder (pfx : String) (list l1 l2 : List (String × String))
    (v : String) (h : trimSlashes pfx = pfx) :
    (∀ n ∈ nodesOfList pfx list, n.node ≠ "") ∧
    nodesOfList pfx (l1 ++ (treeEntryKey pfx, v) :: l2) =
      nodesOfList pfx (l1 ++ l2) ∧
    (∀ (ir : WaitNode → Bool) (s : Snapshot),
      (updateNodes ir s
        (nodesOfList pfx (l1 ++ (treeEntryKey pfx, v) :: l2))).nodeCount =
      (updateNodes ir s (nodesOfList pfx (l1 ++ l2))).nodeCount) := by
  have hdata : trimSlashesL pfx.data = pfx.data := congrArg String.data h
  have hkey : nodeNameOf pfx (treeEntryKey pfx) = "" := by
    show String.mk
      (trimSlashesL ((trimSlashesL pfx.data ++ ['/']).drop pfx.data.length)) = ""
    rw [hdata, List.drop_left]
    rfl
  refine ⟨?_, ?_, ?_⟩
  · intro n hn
    obtain ⟨p, hp, hf⟩ := List.mem_filterMap.1 hn
    dsimp only [nodesOfList] at hf
    by_cases hname : nodeNameOf pfx p.1 = ""
    · rw [if_pos hname] at hf
      cases hf
    · rw [if_neg hname] at hf
      cases hf
      exact hname
  · show (l1 ++ (treeEntryKey pfx, v) :: l2).filterMap _ =
      (l1 ++ l2).filterMap _
    rw [List.filterMap_append, List.filterMap_append, List.filterMap_cons]
    dsimp only
    rw [if_pos hkey]
  · intro ir s
    show (nodesOfList pfx (l1 ++ (treeEntryKey pfx, v) :: l2)).length =
      (nodesOfList pfx (l1 ++ l2)).length
    have heq : nodesOfList pfx (l1 ++ (treeEntryKey pfx, v) :: l2) =
        nodesOfList pfx (l1 ++ l2) := by
      show (l1 ++ (treeEntryKey pfx, v) :: l2).filterMap _ =
        (l1 ++ l2).filterMap _
      rw [List.filterMap_append, List.filterMap_append, List.filterMap_cons]
      dsimp only
      rw [if_pos hkey]
    rw [heq]

/-- Witness for C10 at a concrete input: the placeholder `wait/test/` is
not reported alongside the node `cust1`. -/
theorem C10_placeholder_witness :
    trimSlashes "wait/test" = "wait/test" ∧
    ((∀ n ∈ nodesOfList "wait/test" [("wait/test/cust1", "busy")], n.node ≠ "") ∧
     nodesOfList "wait/test"
        ([] ++ (treeEntryKey "wait/test", "") :: [("wait/test/cust1", "busy")]) =
       nodesOfList "wait/test" ([] ++ [("wait/test/cust1", "busy")]) ∧
     (∀ (ir : WaitNode → Bool) (s : Snapshot),
       (updateNodes ir s (nodesOfList "wait/test"
         ([] ++ (treeEntryKey "wait/test", "") :: [("wait/test/cust1", "busy")]))).nodeCount =
       (updateNodes ir s (nodesOfList "wait/test"
         ([] ++ [("wait/test/cust1", "busy")]))).nodeCount)) :=
  ⟨by decide,
   C10_placeholder "wait/test" [("wait/test/cust1", "busy")] []
     [("wait/test/cust1", "busy")] "" (by decide)⟩

/-! ### Claims about the state publisher -/

theorem pump_ops_put (key sid : String) (putErr : Nat → Option Nat) :
    ∀ (states : List String) (i : Nat) (op : StoreOp),
      op ∈ (pumpStates key sid putErr states i).2 →
      ∃ v, op = StoreOp.put key v sid := by
  intro states
  induction states with
  | nil =>
    intro i op h
    simp [pumpStates] at h
  | cons s rest ih =>
    intro i op h
    rw [pumpStates] at h
    cases hp : putErr i with
    | some e =>
      rw [hp] at h
      simp at h
      exact ⟨s, h⟩
    | none =>
      rw [hp] at h
      simp at h
      rcases h with h | h
      · exact ⟨s, h⟩
      · exact ih (i + 1) op h

theorem body_no_delete (c : CustomerCfg) (session : Option String)
    (acq : Bool × Option Nat) (putErr : Nat → Option Nat)
    (states : List String) (k : String) :
    StoreOp.delete k ∉ (customerRunBody c session acq putErr states).2 := by
  intro hmem
  cases session with
  | none =>
    simp only [customerRunBody] at hmem
    obtain ⟨v, hv⟩ :=
      pump_ops_put (fullKey c) "" putErr states 0 (StoreOp.delete k) hmem
    cases hv
  | some sid =>
    obtain ⟨b, e⟩ := acq
    cases e with
    | some err => simp [customerRunBody] at hmem
    | none =>
      cases b with
      | false => simp [customerRunBody] at hmem
      | true =>
        simp only [customerRunBody, List.mem_cons] at hmem
        rcases hmem with h | h
        · cases h
        · obtain ⟨v, hv⟩ :=
            pump_ops_put (fullKey c) sid putErr states 0 (StoreOp.delete k) h
          cases hv

/-- Claim C6: on every exit of `Run` (customer.go variant with
`defer c.remove()`) — normal close of the state source, acquire failure,
or a put error — the publisher's key is deleted, and this deletion occurs
exactly once per invocation, as the final store operation. -/
theorem C6_retract (c : CustomerCfg) (session : Option String)
    (acq : Bool × Option Nat) (putErr : Nat → Option Nat)
    (states : List String) :
    (customerRun c session acq putErr states).2.count
        (StoreOp.delete (fullKey c)) = 1 ∧
    (customerRun c session acq putErr states).2.getLast? =
      some (StoreOp.delete (fullKey c)) := by
  have hno := body_no_delete c session acq putErr states (fullKey c)
  constructor
  · show ((customerRunBody c session acq putErr states).2 ++
        [StoreOp.delete (fullKey c)]).count (StoreOp.delete (fullKey c)) = 1
    rw [List.count_append, List.count_eq_zero.2 hno]
    simp
  · show ((customerRunBody c session acq putErr states).2 ++
        [StoreOp.delete (fullKey c)]).getLast? =
      some (StoreOp.delete (fullKey c))
    exact List.getLast?_concat _

/-- Claim C7: `Remove` (session.go variant) returns an error and leaves
the store untouched while the customer is running (the `running` flag is
set at `Run`'s entry and cleared by its deferred reset on return); after
`Run` has returned it deletes the key and succeeds, and a repeated call
still succeeds and leaves the store at the same deleted state. -/
theorem C7_remove (cfg : CustomerCfg) (store : List (String × String))
    (session : Option String) (acq : Bool × Option Nat)
    (putErr : Nat → Option Nat) (states : List String)
    (derr : Option Nat) (hderr : derr = none) :
    customerRemove ⟨cfg, true⟩ store derr =
      (some RunError.removeWhileRunning, store) ∧
    customerRemove (customerRun2 ⟨cfg, true⟩ session acq putErr states).2.2
        store derr = (none, eraseKey store (fullKey cfg)) ∧
    customerRemove (customerRun2 ⟨cfg, true⟩ session acq putErr states).2.2
        (eraseKey store (fullKey cfg)) derr =
      (none, eraseKey store (fullKey cfg)) := by
  subst hderr
  have hfun : (fun (p : String × String) =>
      (!(p.1 == fullKey cfg)) && (!(p.1 == fullKey cfg))) =
      (fun p => !(p.1 == fullKey cfg)) := by
    funext p
    exact Bool.and_self _
  have hidem : eraseKey (eraseKey store (fullKey cfg)) (fullKey cfg) =
      eraseKey store (fullKey cfg) := by
    unfold eraseKey
    rw [List.filter_filter, hfun]
  refine ⟨rfl, rfl, ?_⟩
  show ((none : Option RunError),
      eraseKey (eraseKey store (fullKey cfg)) (fullKey cfg)) =
    ((none : Option RunError), eraseKey store (fullKey cfg))
  rw [hidem]

/-- Witness for C7 at a concrete input. -/
theorem C7_remove_witness :
    ((none : Option Nat) = none) ∧
    (customerRemove ⟨exCfg, true⟩ exStore none =
       (some RunError.removeWhileRunning, exStore) ∧
     customerRemove (customerRun2 ⟨exCfg, true⟩ none (true, none) noPutErr
         ["busy", "ready"]).2.2 exStore none =
       (none, eraseKey exStore (fullKey exCfg)) ∧
     customerRemove (customerRun2 ⟨exCfg, true⟩ none (true, none) noPutErr
         ["busy", "ready"]).2.2 (eraseKey exStore (fullKey exCfg)) none =
       (none, eraseKey exStore (fullKey exCfg))) :=
  ⟨rfl,
   C7_remove exCfg exStore none (true, none) noPutErr ["busy", "ready"]
     none rfl⟩

/-- Claim C8: when `Run` is called with a session and the store's acquire
reports `acquired = false` with no error, `Run` returns the contention
error — a constructor distinct from store communication errors — and
performs no put: the operation trace is just the acquire attempt followed
by the deferred retraction. -/
theorem C8_contention (c : CustomerCfg) (sid : String)
    (putErr : Nat → Option Nat) (states : List String) :
    customerRun c (some sid) (false, none) putErr states =
      (some (RunError.contention (fullKey c)),
       [StoreOp.acquire (fullKey c) sid, StoreOp.delete (fullKey c)]) ∧
    (∀ e : Nat, RunError.contention (fullKey c) ≠ RunError.store e) :=
  ⟨rfl, fun _ h => RunError.noConfusion h⟩

/-- Claim C9: in one diff round (listing names and snapshot keys distinct,
as store keys are unique), the emitted transitions are at most one per
node and each has one of the three shapes — a new node carries the new
state with `lastState = ""`, a changed node carries the new state with
`lastState` the previous one, a disappeared node carries `state = ""` with
`lastState` the previous one — and unchanged nodes emit nothing. -/
theorem C9_transitions (ir : WaitNode → Bool) (nodes : Snapshot)
    (ns : List WaitNode) (h1 : (ns.map (fun n => n.node)).Nodup)
    (h2 : (nodes.map Prod.fst).Nodup) :
    (((updateNodes ir nodes ns).updates.map (fun u => u.node)).Nodup) ∧
    (∀ u ∈ (updateNodes ir nodes ns).updates,
      (lookupNode nodes u.node = none ∧ listingState ns u.node = some u.state ∧
        u.lastState = "") ∨
      (∃ p, lookupNode nodes u.node = some p ∧
        listingState ns u.node = some u.state ∧ p ≠ u.state ∧
        u.lastState = p) ∨
      (∃ p, lookupNode nodes u.node = some p ∧ listingState ns u.node = none ∧
        u.state = "" ∧ u.lastState = p)) ∧
    (∀ n ∈ ns, lookupNode nodes n.node = some n.state →
      ∀ u ∈ (updateNodes ir nodes ns).updates, u.node ≠ n.node) := by
  rw [updateNodes_updates ir nodes ns h1]
  set removed := (nodes.filter (fun p => !(ns.any (fun n => n.node == p.1)))).map
    (fun p => (⟨p.1, "", p.2⟩ : WaitNodeUpdate)) with hremoved
  refine ⟨?_, ?_, ?_⟩
  · rw [List.map_append, List.nodup_append]
    refine ⟨?_, ?_, ?_⟩
    · rw [hremoved, List.map_map]
      have hsub : ((nodes.filter
            (fun p => !(ns.any (fun n => n.node == p.1)))).map Prod.fst).Sublist
          (nodes.map Prod.fst) :=
        (List.filter_sublist nodes).map Prod.fst
      exact (h2.sublist hsub)
    · exact h1.sublist (map_node_filterMap_sublist nodes ns)
    · intro a ha hb
      rw [hremoved] at ha
      obtain ⟨u, hu, hua⟩ := List.mem_map.1 ha
      obtain ⟨p, hp, hpu⟩ := List.mem_map.1 hu
      have hpf := (List.mem_filter.1 hp).2
      obtain ⟨w, hw, hwa⟩ := List.mem_map.1 hb
      obtain ⟨x, hx, hfx⟩ := List.mem_filterMap.1 hw
      have hxnode := diffOf_node nodes x w hfx
      have hxa : x.node = a := by rw [← hwa, hxnode]
      have hpa : p.1 = a := by
        rw [← hua, ← hpu]
      have : ns.any (fun n => n.node == p.1) = true := by
        rw [hpa, ← hxa]
        exact mem_any_node ns x hx
      rw [this] at hpf
      cases hpf
  · intro u hu
    rcases List.mem_append.1 hu with hmem | hmem
    · rw [hremoved] at hmem
      obtain ⟨p, hp, hpu⟩ := List.mem_map.1 hmem
      obtain ⟨hpmem, hpf⟩ := List.mem_filter.1 hp
      have hany : ns.any (fun n => n.node == p.1) = false := by
        cases hq : ns.any (fun n => n.node == p.1) with
        | false => rfl
        | true => rw [hq] at hpf; cases hpf
      have hlook : lookupNode nodes p.1 = some p.2 :=
        lookupNode_of_mem nodes p.1 p.2 h2 (by rw [Prod.mk.eta]; exact hpmem)
      have hlist : listingState ns p.1 = none := by
        have hfind : ns.find? (fun n => n.node == p.1) = none := by
          rw [List.find?_eq_none]
          intro x hx hpx
          have : ns.any (fun n => n.node == p.1) = true :=
            List.any_eq_true.2 ⟨x, hx, hpx⟩
          rw [this] at hany
          cases hany
        simp [listingState, hfind]
      refine Or.inr (Or.inr ⟨p.2, ?_, ?_, ?_, ?_⟩)
      · rw [← hpu]; exact hlook
      · rw [← hpu]; exact hlist
      · rw [← hpu]
      · rw [← hpu]
    · obtain ⟨n, hn, hfn⟩ := List.mem_filterMap.1 hmem
      have hlist : listingState ns n.node = some n.state := by
        rw [listingState, find?_self_of_nodup ns n h1 hn]
        rfl
      unfold diffOf at hfn
      split at hfn
      · rename_i hl
        cases hfn
        exact Or.inl ⟨hl, hlist, rfl⟩
      · rename_i p hl
        split at hfn
        · cases hfn
        · rename_i hp
          cases hfn
          refine Or.inr (Or.inl ⟨p, hl, hlist, ?_, rfl⟩)
          intro hcontra
          exact hp (by rw [hcontra]; simp)
  · intro n hn hlook u hu hcontra
    rcases List.mem_append.1 hu with hmem | hmem
    · rw [hremoved] at hmem
      obtain ⟨p, hp, hpu⟩ := List.mem_map.1 hmem
      obtain ⟨_, hpf⟩ := List.mem_filter.1 hp
      have hpn : p.1 = n.node := by rw [← hcontra, ← hpu]
      have : ns.any (fun x => x.node == p.1) = true := by
        rw [hpn]
        exact mem_any_node ns n hn
      rw [this] at hpf
      cases hpf
    · obtain ⟨x, hx, hfx⟩ := List.mem_filterMap.1 hmem
      have hxnode : x.node = n.node := by
        rw [← diffOf_node nodes x u hfx, hcontra]
      have hxn : x = n := node_inj_of_nodup ns x n h1 hx hn hxnode
      subst hxn
      have : diffOf nodes x = none := by
        unfold diffOf
        rw [hlook]
        simp
      rw [this] at hfx
      cases hfx

/-- Witness for C9 at a concrete input: one node appears changed, one is
removed, one is unchanged. -/
theorem C9_transitions_witness :
    ((([(⟨"n1", "ready"⟩ : WaitNode), ⟨"same", "s"⟩].map
        (fun n => n.node)).Nodup) ∧
     (([("gone", "x"), ("n1", "busy"), ("same", "s")].map
        (Prod.fst (α := String) (β := String))).Nodup)) ∧
    ((((updateNodes readyPred [("gone", "x"), ("n1", "busy"), ("same", "s")]
        [⟨"n1", "ready"⟩, ⟨"same", "s"⟩]).updates.map
          (fun u => u.node)).Nodup) ∧
     (∀ u ∈ (updateNodes readyPred [("gone", "x"), ("n1", "busy"), ("same", "s")]
        [⟨"n1", "ready"⟩, ⟨"same", "s"⟩]).updates,
       (lookupNode [("gone", "x"), ("n1", "busy"), ("same", "s")] u.node = none ∧
         listingState [⟨"n1", "ready"⟩, ⟨"same", "s"⟩] u.node = some u.state ∧
         u.lastState = "") ∨
       (∃ p, lookupNode [("gone", "x"), ("n1", "busy"), ("same", "s")] u.node =
           some p ∧
         listingState [⟨"n1", "ready"⟩, ⟨"same", "s"⟩] u.node = some u.state ∧
         p ≠ u.state ∧ u.lastState = p) ∨
       (∃ p, lookupNode [("gone", "x"), ("n1", "busy"), ("same", "s")] u.node =
           some p ∧
         listingState [⟨"n1", "ready"⟩, ⟨"same", "s"⟩] u.node = none ∧
         u.state = "" ∧ u.lastState = p)) ∧
     (∀ n ∈ [(⟨"n1", "ready"⟩ : WaitNode), ⟨"same", "s"⟩],
       lookupNode [("gone", "x"), ("n1", "busy"), ("same", "s")] n.node =
         some n.state →
       ∀ u ∈ (updateNodes readyPred
           [("gone", "x"), ("n1", "busy"), ("same", "s")]
           [⟨"n1", "ready"⟩, ⟨"same", "s"⟩]).updates, u.node ≠ n.node)) :=
  ⟨⟨by decide, by decide⟩,
   C9_transitions readyPred [("gone", "x"), ("n1", "busy"), ("same", "s")]
     [⟨"n1", "ready"⟩, ⟨"same", "s"⟩] (by decide) (by decide)⟩

end Waiter
